import Mathlib

/-! ## Verification of the wavenet-cardigan-feed core pipeline

Shallow embedding of the schema-inference and reshaping core of the
wavenet-cardigan-feed scripts (six script generations: `fetch_cefas.mjs`
holds two, `part_000` two, `part_001` and `part_002` one each).

The JavaScript sources are embedded as pure Lean functions:

* raw CSV rows become association lists from column name to cell text;
* the host `Date` constructor applied to an arbitrary string (the
  "generic date parser", whose behaviour outside the ISO format is
  implementation-defined in ECMAScript) is a parameter
  `gen : String → Option String` of every definition that calls it;
* JavaScript numbers are modelled as rationals, `parseFloat` as a
  rational-valued parser of the ECMAScript decimal-literal prefix;
* `Map`/object insertion-order semantics are modelled by association
  lists with in-place overwrite, and `Array.prototype.sort` with the
  `localeCompare` comparator by a stable insertion sort under the
  code-point order on strings (on ISO-8601 timestamp text the two
  orders agree).
-/

namespace Cefas

/-! ## Character and string primitives (models of the JS string methods) -/

/-- Digit test, as in the JS character classes `[0-9]` and `\d`. -/
def isDigitChar (c : Char) : Bool := ('0' ≤ c) && (c ≤ '9')

/-- Whitespace recognised by the models of `String.prototype.trim` and
`parseFloat`; the sources only ever meet ASCII whitespace. -/
def jsWs (c : Char) : Bool := (c = ' ') || (c = '\t') || (c = '\n') || (c = '\r')

/-- Model of `String.prototype.trim`. -/
def jsTrim (s : String) : String :=
  ⟨((s.data.dropWhile jsWs).reverse.dropWhile jsWs).reverse⟩

/-- Model of `String.prototype.toLowerCase` on the ASCII texts of this feed. -/
def lowerStr (s : String) : String := ⟨s.data.map Char.toLower⟩

/-- Model of `String.prototype.toUpperCase` on the ASCII texts of this feed. -/
def upperStr (s : String) : String := ⟨s.data.map Char.toUpper⟩

/-- The `norm` from the sources: `s => String(s ?? "").trim()`. -/
def normS (s : String) : String := jsTrim s

/-- The `lc` from the sources: `s => norm(s).toLowerCase()`. -/
def lcS (s : String) : String := lowerStr (jsTrim s)

/-- Boolean infix test on character lists (model of `String.prototype.includes`). -/
def infixBool (pat : List Char) : List Char → Bool
  | [] => pat.isPrefixOf []
  | c :: r => pat.isPrefixOf (c :: r) || infixBool pat r

/-- Model of `haystack.includes(needle)`. -/
def strContains (s pat : String) : Bool := infixBool pat.data s.data

/-- Model of `String.prototype.endsWith`. -/
def strEndsWith (s pat : String) : Bool := pat.data.isSuffixOf s.data

/-- Model of `String.prototype.replace(",", ".")`: replace only the first
comma, as the JS string-pattern `replace` does. -/
def replaceFirstCommaAux : List Char → List Char
  | [] => []
  | c :: r => if c = ',' then '.' :: r else c :: replaceFirstCommaAux r

/-- The `raw.replace(",", ".")` from the sources. -/
def jsCommaToDot (s : String) : String := ⟨replaceFirstCommaAux s.data⟩

/-- The `x.replace(/\D/g, "")`: keep only the digits. -/
def stripNonDigits (s : String) : String := ⟨s.data.filter isDigitChar⟩

theorem infixBool_iff (pat l : List Char) : infixBool pat l = true ↔ pat <:+: l := by
  induction l with
  | nil =>
    simp [infixBool, List.isPrefixOf_iff_prefix]
  | cons c r ih =>
    simp only [infixBool, Bool.or_eq_true, List.isPrefixOf_iff_prefix, ih,
      List.infix_cons_iff]

theorem strContains_iff (s pat : String) :
    strContains s pat = true ↔ pat.data <:+: s.data := infixBool_iff _ _

/-! ## Canonical measurement keys and the parameter classifiers -/

/-- The fixed canonical vocabulary: significant wave height, peak period,
zero-crossing period, wave direction. -/
inductive CKey : Type
  | hm0 | tp | tz | dir
deriving DecidableEq, Repr

/-- The normalisation shared by the classifiers:
`lc(v).replace(/[^a-z0-9]/g, "")`. -/
def normParam (v : String) : String :=
  ⟨(lcS v).data.filter (fun c => (('a' ≤ c) && (c ≤ 'z')) || isDigitChar c)⟩

/-- The `hm0` test line, shared verbatim by `classifyParam` and
`classifyWideHeader` (whose `/(^|)hm0($|)/` regex is an
`includes("hm0")` test, since both alternation arms are empty). -/
def hm0Cond (t : String) : Bool :=
  strContains t "hm0" || strContains t "hs" || strContains t "significantwaveheight"

/-- The `tp` test line of `classifyParam` / `classifyLongParam`. -/
def tpCondLong (t : String) : Bool :=
  (t = "tpeak") || (t = "tp") || strContains t "peakperiod" || (t = "tpp")

/-- The `tp` test line of `classifyWideHeader` (no `"tpp"` case). -/
def tpCondWide (t : String) : Bool :=
  (t = "tpeak") || (t = "tp") || strContains t "peakperiod"

/-- The `tz` test line, shared verbatim by both classifiers. -/
def tzCond (t : String) : Bool :=
  (t = "tz") || (t = "t02") || strContains t "zerocross"

/-- The `dir` test line of `classifyParam` / `classifyLongParam`. -/
def dirCondLong (t : String) : Bool :=
  strContains t "w_pdir" || (t = "dp") || strContains t "peakdirection" ||
    strContains t "mwd" || strContains t "direction"

/-- The `dir` test line of `classifyWideHeader`. -/
def dirCondWide (t : String) : Bool :=
  strContains t "w_pdir" || (t = "dp") || strContains t "peakdirection" ||
    strContains t "mwd" || (t = "direction") || strContains t "meandirection"

/-- The `classifyParam` from `fetch_cefas.mjs` (identical text to
`classifyLongParam` in `part_001`): map a raw parameter label to a
canonical key. -/
def classifyParam (v : String) : Option CKey :=
  let t := normParam v
  if hm0Cond t then some .hm0
  else if tpCondLong t then some .tp
  else if tzCond t then some .tz
  else if dirCondLong t then some .dir
  else none

/-- The `classifyLongParam` from `part_001` — its source text is identical to
`classifyParam` of `fetch_cefas.mjs`. -/
def classifyLongParam (v : String) : Option CKey := classifyParam v

/-- The `classifyWideHeader` from `part_001`: map a column header to a
canonical key. -/
def classifyWideHeader (h : String) : Option CKey :=
  let t := normParam h
  if hm0Cond t then some .hm0
  else if tpCondWide t then some .tp
  else if tzCond t then some .tz
  else if dirCondWide t then some .dir
  else none

/-- Modelled from the spec: the dir-rule of §4.4 as the spec words it —
"normalized text contains `wpdir` …, equals `dp`, contains
`peakdirection`, equals `mwd`, contains `meandirection`, or equals
`direction`". Used only to compare the spec's claim with the code. -/
def specDirCond (t : String) : Bool :=
  strContains t "wpdir" || (t = "dp") || strContains t "peakdirection" ||
    (t = "mwd") || strContains t "meandirection" || (t = "direction")

/-! ## `parseFloat` (ECMAScript decimal-literal prefix, over ℚ)

The host `parseFloat` is modelled over the rationals: it trims leading
whitespace, reads the longest decimal-literal prefix
(`[+-]? (Digits [. Digits?] | . Digits) ([eE] [+-]? Digits)?`), and the
sources accept the result only when `Number.isFinite` holds, which
rejects the `Infinity` literal and a missing literal (`NaN`).  Binary
floating-point rounding and overflow-to-infinity are outside the model;
none of the cell values exercised here are affected by either. -/

/-- Numeric value of a digit string. -/
def natOfDigits (l : List Char) : Nat := l.foldl (fun n c => 10 * n + (c.toNat - 48)) 0

/-- Exponent part of the decimal literal; an absent or malformed
exponent contributes the factor 1 (the prefix parse stops before it). -/
def expTail (l : List Char) : Int :=
  match l with
  | e :: rest =>
    if (e = 'e') || (e = 'E') then
      match rest with
      | '+' :: r2 => (natOfDigits (r2.takeWhile isDigitChar) : Int)
      | '-' :: r2 => -(natOfDigits (r2.takeWhile isDigitChar) : Int)
      | r2 => (natOfDigits (r2.takeWhile isDigitChar) : Int)
    else 0
  | [] => 0

/-- The `parseFloat` followed by the `Number.isFinite` guard of the sources:
`some q` exactly when `Number.isFinite(parseFloat(s))`, with `q` the
parsed value (the decimal `sgn · (ip.fp) · 10^ex` assembled as one
reduced fraction). -/
def jsParseFloatFinite (s : String) : Option ℚ :=
  let l := s.data.dropWhile jsWs
  let neg : Bool := match l with | '-' :: _ => true | _ => false
  let l1 := match l with | '+' :: r => r | '-' :: r => r | r => r
  if "Infinity".data.isPrefixOf l1 then none
  else
    let ip := l1.takeWhile isDigitChar
    let r1 := l1.dropWhile isDigitChar
    let fp := match r1 with | '.' :: rf => rf.takeWhile isDigitChar | _ => []
    let r2 := match r1 with | '.' :: rf => rf.dropWhile isDigitChar | _ => r1
    if ip.isEmpty && fp.isEmpty then none
    else
      let ex := expTail r2
      let mantNum : Int := (natOfDigits ip * 10 ^ fp.length + natOfDigits fp : Nat)
      let num : Int := if neg then -mantNum else mantNum
      some (if 0 ≤ ex then mkRat (num * ((10 ^ ex.toNat : Nat) : Int)) (10 ^ fp.length)
            else mkRat num (10 ^ fp.length * 10 ^ (-ex).toNat))

/-! ## UTC calendar arithmetic (`Date.UTC` and `Date.prototype.toISOString`)

Proleptic-Gregorian conversions between civil dates and day numbers
(days since 1970-01-01), used to model
`new Date(Date.UTC(y, m0, d, h, mi, s)).toISOString()` including the
component roll-over `Date.UTC` performs. -/

/-- Day number of the civil date `y-m-d` (month `1..12`; day may roll over). -/
def daysFromCivil (y m d : Int) : Int :=
  let y2 := if m ≤ 2 then y - 1 else y
  let era := y2.fdiv 400
  let yoe := y2 - era * 400
  let mp := if 2 < m then m - 3 else m + 9
  let doy := (153 * mp + 2).fdiv 5 + d - 1
  let doe := yoe * 365 + yoe.fdiv 4 - yoe.fdiv 100 + doy
  era * 146097 + doe - 719468

/-- Civil date `(y, m, d)` of a day number. -/
def civilFromDays (z0 : Int) : Int × Int × Int :=
  let z := z0 + 719468
  let era := z.fdiv 146097
  let doe := z - era * 146097
  let yoe := (doe - doe.fdiv 1460 + doe.fdiv 36524 - doe.fdiv 146096).fdiv 365
  let y := yoe + era * 400
  let doy := doe - (365 * yoe + yoe.fdiv 4 - yoe.fdiv 100)
  let mp := (5 * doy + 2).fdiv 153
  let d := doy - (153 * mp + 2).fdiv 5 + 1
  let m := if mp < 10 then mp + 3 else mp - 9
  (if m ≤ 2 then y + 1 else y, m, d)

/-- Zero-padded decimal rendering. -/
def padNum (width n : Nat) : String :=
  let s := toString n
  ⟨List.replicate (width - s.length) '0'⟩ ++ s

/-- The `toISOString` of an epoch expressed in whole seconds (the pipeline
only ever builds whole-second instants, so the millisecond field is
`.000`; years outside `0..9999` use the expanded six-digit form). -/
def epochSecToISO (t : Int) : String :=
  let days := t.fdiv 86400
  let sod := (t - days * 86400).toNat
  let c := civilFromDays days
  let ys :=
    if 0 ≤ c.1 ∧ c.1 ≤ 9999 then padNum 4 c.1.toNat
    else if c.1 < 0 then "-" ++ padNum 6 (-c.1).toNat
    else "+" ++ padNum 6 c.1.toNat
  ys ++ "-" ++ padNum 2 c.2.1.toNat ++ "-" ++ padNum 2 c.2.2.toNat ++ "T" ++
    padNum 2 (sod / 3600) ++ ":" ++ padNum 2 (sod / 60 % 60) ++ ":" ++
    padNum 2 (sod % 60) ++ ".000Z"

/-- Epoch seconds of the instant `yr-m0-d h:mi:s` UTC with the year
taken as written (`m0` is the JS zero-based month; month, day and time
components roll over as in `MakeDay`/`MakeTime`). -/
def dateUTCCore (yr m0 d h mi s : Int) : Int :=
  let ym := yr + m0.fdiv 12
  let mn := m0 - 12 * m0.fdiv 12
  (daysFromCivil ym (mn + 1) 1 + (d - 1)) * 86400 + h * 3600 + mi * 60 + s

/-- Epoch seconds of `Date.UTC(y, m0, d, h, mi, s)`, including the
`MakeFullYear` rule `Date.UTC` applies to its year argument: a year in
`0..99` is read as `1900 + y`. -/
def dateUTC (y m0 d h mi s : Int) : Int :=
  dateUTCCore (if 0 ≤ y ∧ y ≤ 99 then 1900 + y else y) m0 d h mi s

/-- The `new Date(Date.UTC(y, m0, d, h, mi, s)).toISOString()`. -/
def dateUTCtoISO (y m0 d h mi s : Int) : String := epochSecToISO (dateUTC y m0 d h mi s)

/-- Modelled from the spec: the literal-shape reading of §4.5 — "DD as
day, MM as month, YYYY as year, all components in UTC" — keeps the year
as written, with no two-digit-year remap. -/
def dateUTCtoISOSpec (y m0 d h mi s : Int) : String :=
  epochSecToISO (dateUTCCore y m0 d h mi s)

/-! ## Timestamp normalisation (`toISO` of the script generations)

The anchor-to-anchor regular expressions of the sources are embedded as
exact-shape parsers on character lists.  The host's generic date parser
(`new Date(string)` on anything else, whose behaviour is
implementation-defined outside the ISO format) is the parameter
`gen : String → Option String`, returning the `toISOString` of the
parsed instant or `none` for an invalid date. -/

/-- Exactly two digits. -/
def take2 : List Char → Option (Nat × List Char)
  | c1 :: c2 :: rest =>
    if isDigitChar c1 && isDigitChar c2 then
      some (10 * (c1.toNat - 48) + (c2.toNat - 48), rest)
    else none
  | _ => none

/-- Exactly four digits. -/
def take4 (l : List Char) : Option (Nat × List Char) :=
  match take2 l with
  | some (hi, r) =>
    match take2 r with
    | some (lo, r2) => some (100 * hi + lo, r2)
    | none => none
  | none => none

/-- The optional `(?:[ T](\d{2}):(\d{2})(?::(\d{2}))?)?$` tail shared by
the `D/M/Y` and `Y-M-D` regexes; defaults of `00` for missing parts. -/
def timeTail : List Char → Option (Nat × Nat × Nat)
  | [] => some (0, 0, 0)
  | sep :: rest =>
    if (sep = ' ') || (sep = 'T') then
      match take2 rest with
      | some (hh, ':' :: r2) =>
        match take2 r2 with
        | some (mm, []) => some (hh, mm, 0)
        | some (mm, ':' :: r3) =>
          match take2 r3 with
          | some (ss, []) => some (hh, mm, ss)
          | _ => none
        | _ => none
      | _ => none
    else none

/-- The `^(\d{2})\/(\d{2})\/(\d{4})…$` match (`D/M/Y H:M[:S]`),
returning `(dd, MM, yyyy, hh, mm, ss)`. -/
def matchDMY (l : List Char) : Option (Nat × Nat × Nat × Nat × Nat × Nat) :=
  match take2 l with
  | some (dd, '/' :: r1) =>
    match take2 r1 with
    | some (mm, '/' :: r2) =>
      match take4 r2 with
      | some (yyyy, r3) =>
        match timeTail r3 with
        | some (hh, mi, ss) => some (dd, mm, yyyy, hh, mi, ss)
        | none => none
      | none => none
    | _ => none
  | _ => none

/-- The `^(\d{4})-(\d{2})-(\d{2})…$` match (`Y-M-D H:M[:S]`),
returning `(yyyy, MM, dd, hh, mm, ss)`. -/
def matchYMD (l : List Char) : Option (Nat × Nat × Nat × Nat × Nat × Nat) :=
  match take4 l with
  | some (yyyy, '-' :: r1) =>
    match take2 r1 with
    | some (mm, '-' :: r2) =>
      match take2 r2 with
      | some (dd, r3) =>
        match timeTail r3 with
        | some (hh, mi, ss) => some (yyyy, mm, dd, hh, mi, ss)
        | none => none
      | none => none
    | _ => none
  | _ => none

/-- The `/^\d{4}-\d{2}-\d{2}T/` test. -/
def isoTTest (l : List Char) : Bool :=
  match l with
  | a :: b :: c :: d :: '-' :: e :: f :: '-' :: p :: q :: 'T' :: _ =>
    isDigitChar a && isDigitChar b && isDigitChar c && isDigitChar d &&
      isDigitChar e && isDigitChar f && isDigitChar p && isDigitChar q
  | _ => false

/-- The `toISO` of `fetch_cefas.mjs` (first script): ISO-with-`T` handed to
the generic parser, else `D/M/Y` in UTC, else `Y-M-D` in UTC, else the
generic parser on the trimmed string *unchanged*. -/
def toISOFetch (gen : String → Option String) (dt : String) : Option String :=
  let s := jsTrim dt
  if isoTTest s.data then gen s
  else
    match matchDMY s.data with
    | some (dd, mm, yyyy, hh, mi, ss) =>
      some (dateUTCtoISO yyyy ((mm : Int) - 1) dd hh mi ss)
    | none =>
      match matchYMD s.data with
      | some (yyyy, mm, dd, hh, mi, ss) =>
        some (dateUTCtoISO yyyy ((mm : Int) - 1) dd hh mi ss)
      | none => gen s

/-- Modelled from the spec: §4.5 timestamp normalization as the spec
words it — the same three literal shapes in the same order, with every
component (the year included) read as written in UTC, and the fallback
"hand to a generic date parser; if the string lacks a trailing UTC
marker, append one before parsing".  Used only to compare the spec's
claim with the code. -/
def toISOSpecModel (gen : String → Option String) (dt : String) : Option String :=
  let s := jsTrim dt
  if isoTTest s.data then gen s
  else
    match matchDMY s.data with
    | some (dd, mm, yyyy, hh, mi, ss) =>
      some (dateUTCtoISOSpec yyyy ((mm : Int) - 1) dd hh mi ss)
    | none =>
      match matchYMD s.data with
      | some (yyyy, mm, dd, hh, mi, ss) =>
        some (dateUTCtoISOSpec yyyy ((mm : Int) - 1) dd hh mi ss)
      | none => gen (if strEndsWith s "Z" then s else s ++ "Z")

/-- The `toISO` of `part_001` (and of `part_002` up to `getTime`): the
generic parser on the raw string, retried with `"Z"` appended. -/
def toISONative (gen : String → Option String) (s : String) : Option String :=
  match gen s with
  | some r => some r
  | none => gen (s ++ "Z")

/-- The `toISO` of the second script of `part_000` (and of the second script
of `fetch_cefas.mjs`): `D/M/Y` in UTC, else the generic parser with a
`"Z"` appended unless already present. -/
def toISODmyZ (gen : String → Option String) (dt : String) : Option String :=
  let s := jsTrim dt
  match matchDMY s.data with
  | some (dd, mm, yyyy, hh, mi, ss) =>
    some (dateUTCtoISO yyyy ((mm : Int) - 1) dd hh mi ss)
  | none => gen (if strEndsWith s "Z" then s else s ++ "Z")

/-! ## Rows, header classification, canonical records -/

/-- A parsed CSV row: ordered column-name/cell pairs, as produced by
`parse(text, { columns: true })`. -/
abbrev Row : Type := List (String × String)

/-- The `row[col]` with the sources' `?? ""` / `norm` discipline: a missing
column, or no resolved column at all, reads as the empty string. -/
def rowGet (r : Row) (col : Option String) : String :=
  match col with
  | none => ""
  | some c => ((r : List (String × String)).lookup c).getD ""

/-- The `pickExact` of `fetch_cefas.mjs` / `part_001`: first candidate name
with a case-insensitive exact header match, in candidate order. -/
def pickExact (headers names : List String) : Option String :=
  names.findSome? (fun n => headers.find? (fun h => lcS h = lcS n))

/-- The `pickLoose` of `fetch_cefas.mjs` / `part_001`: first needle contained
in some case-folded header, in needle order. -/
def pickLoose (headers needles : List String) : Option String :=
  needles.findSome? (fun n => headers.find? (fun h => strContains (lcS h) (lcS n)))

/-- The `findCol` of the first script of `part_000`: all exact
candidates before any loose needle; this generation lower-cases the
headers without trimming them. -/
def findCol (headers exact loose : List String) : Option String :=
  match exact.findSome? (fun e => headers.find? (fun h => lowerStr h = lowerStr e)) with
  | some h => some h
  | none => loose.findSome? (fun p => headers.find? (fun h => strContains (lowerStr h) (lowerStr p)))

/-- The `pickExact(headers, …) || pickLoose(headers, …)` combination
used for every column role in `fetch_cefas.mjs` and `part_001` (their
`lc` trims before case-folding). -/
def pickCol (headers exact loose : List String) : Option String :=
  match pickExact headers exact with
  | some h => some h
  | none => pickLoose headers loose

/-- Per-timestamp canonical fields, in JS object insertion order. -/
abbrev FieldList : Type := List (CKey × ℚ)

/-- A canonical record of the output series: timestamp plus fields. -/
abbrev Rec : Type := String × FieldList

/-- The `obj[cls] = val` on a JS object: overwrite in place, else append. -/
def setField : FieldList → CKey → ℚ → FieldList
  | [], k, v => [(k, v)]
  | (k0, v0) :: rest, k, v =>
    if k0 = k then (k, v) :: rest else (k0, v0) :: setField rest k v

/-- The `byTs.get(ts)[cls] = val` preceded by `if (!byTs.has(ts)) byTs.set(ts, {ts})`:
a JS `Map` in insertion order with per-timestamp overwrite. -/
def upsertTs : List Rec → String → CKey → ℚ → List Rec
  | [], ts, k, v => [(ts, [(k, v)])]
  | (t0, fs) :: rest, ts, k, v =>
    if t0 = ts then (t0, setField fs k v) :: rest
    else (t0, fs) :: upsertTs rest ts k v

/-- Code-point lexicographic `≤` on character lists; the model of the
`localeCompare`-based sort comparator (on ISO-8601 timestamp text the
locale collation and the code-point order agree). -/
def leChars : List Char → List Char → Bool
  | [], _ => true
  | _ :: _, [] => false
  | a :: as, b :: bs => if a = b then leChars as bs else decide (a < b)

/-- Comparator of `series.sort((a,b) => a.ts.localeCompare(b.ts))`. -/
def tsLe (a b : Rec) : Prop := leChars a.1.data b.1.data = true

instance : DecidableRel tsLe := fun a b =>
  inferInstanceAs (Decidable (leChars a.1.data b.1.data = true))

theorem leChars_total : ∀ as bs : List Char, leChars as bs = true ∨ leChars bs as = true := by
  intro as
  induction as with
  | nil => intro bs; left; rfl
  | cons a as2 ih =>
    intro bs
    cases bs with
    | nil => right; rfl
    | cons b bs2 =>
      by_cases hab : a = b
      · subst hab
        rcases ih bs2 with h | h
        · left; simpa [leChars] using h
        · right; simpa [leChars] using h
      · rcases lt_or_gt_of_ne hab with hlt | hgt
        · left
          simp [leChars, hab, hlt]
        · right
          have hba : ¬ b = a := fun e => hab e.symm
          simp [leChars, hba]
          exact hgt

theorem leChars_trans : ∀ as bs cs : List Char,
    leChars as bs = true → leChars bs cs = true → leChars as cs = true := by
  intro as
  induction as with
  | nil => intro bs cs h1 h2; rfl
  | cons a as2 ih =>
    intro bs cs h1 h2
    cases bs with
    | nil => simp [leChars] at h1
    | cons b bs2 =>
      cases cs with
      | nil => simp [leChars] at h2
      | cons c cs2 =>
        by_cases hab : a = b <;> by_cases hbc : b = c
        · subst hab
          subst hbc
          simp only [leChars, if_pos rfl] at h1 h2 ⊢
          exact ih _ _ h1 h2
        · subst hab
          simp only [leChars, if_neg hbc, decide_eq_true_eq] at h2 ⊢
          exact h2
        · subst hbc
          simp only [leChars, if_neg hab, decide_eq_true_eq] at h1 ⊢
          exact h1
        · simp only [leChars, if_neg hab, decide_eq_true_eq] at h1
          simp only [leChars, if_neg hbc, decide_eq_true_eq] at h2
          have hac0 : a < c := lt_trans h1 h2
          have hac : ¬ a = c := fun e => absurd (e ▸ hac0) (lt_irrefl a)
          simp only [leChars, if_neg hac, decide_eq_true_eq]
          exact hac0

instance : IsTotal Rec tsLe := ⟨fun a b => leChars_total a.1.data b.1.data⟩

instance : IsTrans Rec tsLe := ⟨fun _ _ _ h1 h2 => leChars_trans _ _ _ h1 h2⟩

/-- The `.sort(...)` call (stable, as ECMAScript requires). -/
def sortByTs (l : List Rec) : List Rec := List.insertionSort tsLe l

/-! ## The `fetch_cefas.mjs` (first script) pipeline -/

/-- Outcome of a run after a successful fetch: `fail` is a non-zero
`process.exit`, `ok` carries the series and latest documents written. -/
inductive RunOut : Type
  | fail : RunOut
  | ok (series : List Rec) (latest : Option Rec) : RunOut
deriving DecidableEq

/-- The `isCardigan` of `fetch_cefas.mjs`: instrument-id digits equal to the
configured digits, or deployment text containing `"cardigan"` or the
case-folded station code. -/
def isCardigan (stationCode targetInst : String) (instCol deployCol : Option String)
    (r : Row) : Bool :=
  let instVal := normS (rowGet r instCol)
  let depVal := match deployCol with
    | some c => lcS (rowGet r (some c))
    | none => ""
  (instVal ≠ "" && stripNonDigits instVal = stripNonDigits targetInst) ||
    strContains depVal "cardigan" || strContains depVal (lcS stationCode)

/-- One row of the `byTs` loop of `fetch_cefas.mjs` (lines 104–116). -/
def stepFetch (gen : String → Option String) (stationCode targetInst : String)
    (timeCol paramCol valueCol instCol deployCol : Option String)
    (acc : List Rec) (r : Row) : List Rec :=
  if !isCardigan stationCode targetInst instCol deployCol r then acc
  else
    match toISOFetch gen (rowGet r timeCol) with
    | none => acc
    | some ts =>
      match classifyParam (rowGet r paramCol) with
      | none => acc
      | some cls =>
        match jsParseFloatFinite (jsCommaToDot (normS (rowGet r valueCol))) with
        | none => acc
        | some v => upsertTs acc ts cls v

/-- The whole post-fetch run of the first script of `fetch_cefas.mjs`:
empty CSV writes empty documents and exits 0; otherwise header
classification, the `byTs` reduction and the sort. -/
def runFetch (gen : String → Option String) (stationCode targetInst : String)
    (rows : List Row) : RunOut :=
  match rows with
  | [] => .ok [] none
  | r0 :: _ =>
    let headers := (r0 : List (String × String)).map Prod.fst
    let timeCol := pickCol headers
      ["Date/Time", "DateTime", "SampleDateTime", "Timestamp", "Time", "Datetime"]
      ["date", "time"]
    let paramCol := pickCol headers ["Parameter", "ParameterCode", "ParamCode"]
      ["parameter", "param", "variable", "observed", "property", "name"]
    let valueCol := pickCol headers
      ["ResultMean", "Value", "Result", "Reading", "DataValue", "NumericValue"]
      ["value", "result", "reading"]
    let instCol := pickCol headers ["InstId", "InstID", "InstrumentID", "InstrumentId"]
      ["inst", "instrument"]
    let deployCol := pickCol headers ["Deployment", "DeploymentName"]
      ["deployment", "location", "site", "name"]
    let byTs := rows.foldl
      (stepFetch gen stationCode targetInst timeCol paramCol valueCol instCol deployCol) []
    let series := sortByTs byTs
    .ok series series.getLast?

/-! ## The first script of `part_000` (exact station match, `wanted` map) -/

/-- The `matchesStation` of `part_000`: exact case-insensitive equality of a
station or platform cell against the configured tokens. -/
def matchesStation (stationCode platformId : String) (stationCol platformCol : Option String)
    (r : Row) : Bool :=
  let s := upperStr (jsTrim (rowGet r stationCol))
  let p := upperStr (jsTrim (rowGet r platformCol))
  (s = upperStr stationCode) || (p = upperStr platformId)

/-- The `wanted` pivot map of `part_000`: exact parameter codes only. -/
def wanted (pcode : String) : Option CKey :=
  ([("Hm0", CKey.hm0), ("Tpeak", CKey.tp), ("Tz", CKey.tz), ("W_PDIR", CKey.dir)]).lookup pcode

/-- One row of the `byTs` loop of `part_000` (first script, lines 63–73);
its `toISO` is the bare generic parser. -/
def stepPart0 (gen : String → Option String) (timeCol paramCol valueCol : Option String)
    (acc : List Rec) (r : Row) : List Rec :=
  match gen (rowGet r timeCol) with
  | none => acc
  | some ts =>
    match wanted (jsTrim (rowGet r paramCol)) with
    | none => acc
    | some key =>
      match jsParseFloatFinite (jsCommaToDot (rowGet r valueCol)) with
      | none => acc
      | some v => upsertTs acc ts key v

/-- The whole post-fetch run of the first script of `part_000`:
`process.exit(1)` on an empty CSV and on unresolved time/parameter/value
columns, else filter, pivot and sort. -/
def runPart0 (gen : String → Option String) (stationCode platformId : String)
    (rows : List Row) : RunOut :=
  match rows with
  | [] => .fail
  | r0 :: _ =>
    let headers := (r0 : List (String × String)).map Prod.fst
    let timeCol := findCol headers
      ["DateTime", "SampleDateTime", "Timestamp", "Time", "Datetime"] ["time"]
    let stationCol := findCol headers
      ["Station", "StationCode", "Site", "SiteCode", "StationID"] ["station", "site"]
    let platformCol := findCol headers ["Platform", "PlatformCode", "PlatformID"] ["platform"]
    let paramCol := findCol headers ["Parameter", "ParameterCode", "ParamCode"] ["parameter"]
    let valueCol := findCol headers
      ["Value", "Result", "Reading", "DataValue", "NumericValue"]
      ["value", "result", "reading"]
    if timeCol = none ∨ paramCol = none ∨ valueCol = none then .fail
    else
      let filtered := rows.filter (matchesStation stationCode platformId stationCol platformCol)
      let byTs := filtered.foldl (stepPart0 gen timeCol paramCol valueCol) []
      let series := sortByTs byTs
      .ok series series.getLast?

/-! ## The `part_001` pipeline (shape detection, wide and long paths) -/

/-- The `[...new Set(list)]`: deduplicate keeping first occurrences. -/
def dedupFirst (l : List String) : List String :=
  l.foldl (fun acc s => if s ∈ acc then acc else acc ++ [s]) []

/-- The `join(sep)` on a list of strings. -/
def joinSep (sep : String) : List String → String
  | [] => ""
  | [s] => s
  | s :: r => s ++ sep ++ joinSep sep r

/-- The `stationMatchPool` of `part_001`: the case-folded identity cells
joined with `" | "`. -/
def stationMatchPool (r : Row) (stationCols : List String) : String :=
  joinSep " | " (stationCols.map (fun c => lcS (rowGet r (some c))))

/-- The `/(^|[^0-9])353([^0-9]|$)/` test of `part_001`: `"353"` occurs
with no adjacent digit.  `prevOk` carries whether the previous character
(or the start anchor) is a non-digit. -/
def scan353 (prevOk : Bool) : List Char → Bool
  | c1 :: c2 :: c3 :: rest =>
    if prevOk && (c1 = '3') && (c2 = '5') && (c3 = '3') &&
        (match rest with | [] => true | c4 :: _ => !isDigitChar c4) then true
    else scan353 (!isDigitChar c1) (c2 :: c3 :: rest)
  | _ => false

/-- The `looksLikeCardigan` of `part_001`. -/
def looksLikeCardigan (stationCode platformId : String) (pool : String) : Bool :=
  strContains pool (lcS stationCode) || strContains pool (lcS platformId) ||
    scan353 true pool.data || strContains pool "cardigan"

/-- The `wideMap[k] = h` on a JS object keyed by canonical keys: overwrite
in place, else append. -/
def upsertWide (m : List (CKey × String)) (k : CKey) (h : String) : List (CKey × String) :=
  if m.any (fun p => p.1 = k) then m.map (fun p => if p.1 = k then (k, h) else p)
  else m ++ [(k, h)]

/-- The `wideMap` fold of `part_001` (lines 117–121): classify each
header, keep the column name per canonical key, later headers
overwriting earlier ones for the same key. -/
def buildWideMap (headers : List String) : List (CKey × String) :=
  headers.foldl
    (fun m h =>
      match classifyWideHeader h with
      | some k => upsertWide m k h
      | none => m) []

/-- The `isWide` of `part_001`: at least two canonical keys directly
identifiable among the headers. -/
def isWideHeaders (headers : List String) : Bool :=
  2 ≤ (buildWideMap headers).length

/-- The wide-path per-row object assembly of `part_001` (lines 142–150):
fields in the fixed key order `hm0, tp, tz, dir`, each taken from its
detected column when the cell parses to a finite number. -/
def wideObjFields (wideMap : List (CKey × String)) (r : Row) : FieldList :=
  ([CKey.hm0, CKey.tp, CKey.tz, CKey.dir]).foldr
    (fun k acc =>
      match wideMap.lookup k with
      | none => acc
      | some col =>
        match jsParseFloatFinite (jsCommaToDot (normS (rowGet r (some col)))) with
        | none => acc
        | some v => (k, v) :: acc) []

/-- One wide-path row of `part_001`: selection, timestamp, fields; the
record is pushed only when some canonical field is present. -/
def wideRowStep (gen : String → Option String) (stationCode platformId : String)
    (filterCols : List String) (timeCol : Option String) (wideMap : List (CKey × String))
    (r : Row) : Option Rec :=
  if !looksLikeCardigan stationCode platformId (stationMatchPool r filterCols) then none
  else
    match toISONative gen (rowGet r timeCol) with
    | none => none
    | some ts =>
      match wideObjFields wideMap r with
      | [] => none
      | fs => some (ts, fs)

/-- One long-path row of `part_001` (lines 161–177). -/
def longRowStep (gen : String → Option String) (stationCode platformId : String)
    (filterCols : List String) (timeCol paramCol valueCol : Option String)
    (acc : List Rec) (r : Row) : List Rec :=
  if !looksLikeCardigan stationCode platformId (stationMatchPool r filterCols) then acc
  else
    match toISONative gen (rowGet r timeCol) with
    | none => acc
    | some ts =>
      match classifyLongParam (rowGet r paramCol) with
      | none => acc
      | some cls =>
        match jsParseFloatFinite (jsCommaToDot (normS (rowGet r valueCol))) with
        | none => acc
        | some v => upsertTs acc ts cls v

/-- The identity-column resolution of `part_001` (lines 97–112). -/
def filterColsOf (headers : List String) : List String :=
  let stationCols := ([pickExact headers ["Station", "StationCode", "Site", "SiteCode", "StationID"],
    pickLoose headers ["station", "site", "buoy"]]).reduceOption
  let platformCols := ([pickExact headers ["Platform", "PlatformCode", "PlatformID", "PlatformNumber"],
    pickLoose headers ["platform"]]).reduceOption
  let nameCols := ([pickExact headers ["StationName", "SiteName", "PlatformName", "Location"],
    pickLoose headers ["name", "location"]]).reduceOption
  dedupFirst (stationCols ++ platformCols ++ nameCols)

/-- The post-fetch series construction of `part_001`: empty CSV gives an
empty series; otherwise shape detection chooses the wide push-per-row
path or the long pivot path, and both end in the timestamp sort (the
long path sorts once when built and once more at line 181, which the
model reproduces). -/
def seriesPart1 (gen : String → Option String) (stationCode platformId : String)
    (rows : List Row) : List Rec :=
  match rows with
  | [] => []
  | r0 :: _ =>
    let headers := (r0 : List (String × String)).map Prod.fst
    let filterCols := filterColsOf headers
    let timeCol := pickCol headers
      ["DateTime", "SampleDateTime", "Timestamp", "Time", "Datetime"] ["date", "time"]
    let wideMap := buildWideMap headers
    if 2 ≤ wideMap.length then
      sortByTs (rows.filterMap (wideRowStep gen stationCode platformId filterCols timeCol wideMap))
    else
      let valueCol := pickCol headers
        ["Value", "Result", "Reading", "DataValue", "NumericValue"]
        ["value", "result", "reading"]
      let paramCol := pickCol headers ["Parameter", "ParameterCode", "ParamCode"]
        ["parameter", "param", "variable", "observed", "property", "name"]
      let byTs := rows.foldl
        (longRowStep gen stationCode platformId filterCols timeCol paramCol valueCol) []
      sortByTs (sortByTs byTs)

/-- The run of `part_001`: series plus latest; no post-fetch exit path
is fatal in this generation. -/
def runPart1 (gen : String → Option String) (stationCode platformId : String)
    (rows : List Row) : RunOut :=
  let series := seriesPart1 gen stationCode platformId rows
  .ok series series.getLast?

/-! ## The row selector of `part_002` -/

/-- The `rowIsCardigan` of `part_002`: the identity cells are concatenated
with `"|"`, upper-cased, and each configured needle (station code,
platform id, the bare digits `"353"`, `"CARDIGAN"`) is tested by
substring containment. -/
def rowIsCardigan (stationCode platformId : String) (r : Row)
    (stationCols platformCols nameCols : List String) : Bool :=
  let needles := [upperStr stationCode, upperStr platformId, "353", "CARDIGAN"]
  let pool := (stationCols ++ platformCols ++ nameCols).map (fun c => rowGet r (some c))
  let hay := upperStr (joinSep "|" pool)
  needles.any (fun n => strContains hay n)

/-! ## Concrete payloads and concrete generic-parser instances

The generic-parser instances fix `new Date(string)` only on the inputs
a theorem feeds it; where an instance answers, it answers as the host
does (a full ISO-8601 UTC string parses to itself; V8 and the other
engines parse `"01/06/2024 12:00"` month-first in host local time,
which in the UTC environment of this feed's scheduled runs is
`2024-01-06T12:00:00.000Z`). -/

/-- A generic parser that accepts nothing. -/
def genNone : String → Option String := fun _ => none

/-- A generic parser fixing only the host's month-first reading of
`"01/06/2024 12:00"` under a UTC host clock. -/
def genJan : String → Option String :=
  fun s => if s = "01/06/2024 12:00" then some "2024-01-06T12:00:00.000Z" else none

/-- A generic parser fixing only the ECMA-specified parse of one full
ISO-8601 UTC string. -/
def genIso : String → Option String :=
  fun s => if s = "2024-06-01T12:00:00.000Z" then some s else none

/-- A generic parser fixing the actual engines' legacy parse of the
month-name form `"June 1, 2024"` on a host whose clock is at UTC+01:00.
The string is outside the ECMA Date Time String Format, so its parse is
implementation-defined; the engines' legacy parsers read it as host
local midnight without a zone designator, and as UTC midnight when the
trailing UTC marker is present ( `"Z"` is accepted as a zone
designator).  Exactly this local-time sensitivity is what the spec's
marker-appending fallback is designed to remove. -/
def genLegacyPlusOne : String → Option String :=
  fun s =>
    if s = "June 1, 2024" then some "2024-05-31T23:00:00.000Z"
    else if s = "June 1, 2024Z" then some "2024-06-01T00:00:00.000Z"
    else none

/-- The long-shape scenario rows of the spec (§8). -/
def c1Rows : List Row :=
  [[("Time", "01/06/2024 12:00"), ("Parameter", "Hm0"), ("Value", "1,5"), ("Station", "EXT")],
   [("Time", "01/06/2024 12:00"), ("Parameter", "Tp"), ("Value", "6.2"), ("Station", "EXT")]]

/-- The Canonical Record the spec's scenario expects. -/
def c1Rec : Rec :=
  ("2024-06-01T12:00:00.000Z", [(CKey.hm0, (3 : ℚ) / 2), (CKey.tp, (31 : ℚ) / 5)])

/-- A wide-shape payload with two rows at one timestamp. -/
def c4WideRows : List Row :=
  [[("Time", "2024-06-01T12:00:00.000Z"), ("Hm0", "1.5"), ("Tp", "5.0"), ("Station", "EXT")],
   [("Time", "2024-06-01T12:00:00.000Z"), ("Hm0", "2.5"), ("Tp", "6.0"), ("Station", "EXT")]]

/-- A long row whose value cell carries trailing non-numeric text and
whose deployment text selects it. -/
def c10Rows : List Row :=
  [[("DateTime", "01/06/2024 12:00"), ("Parameter", "Hm0"), ("Value", "5.0abc"),
    ("Deployment", "Cardigan Bay")]]

/-- Headers of the first parsed row (`Object.keys(rows[0])`). -/
def headersOf (rows : List Row) : List String :=
  match rows with
  | [] => []
  | r0 :: _ => (r0 : List (String × String)).map Prod.fst

/-! ## Shared lemmas -/

theorem strContains_of_infix {t p q : String} (hqp : q.data <:+: p.data)
    (h : strContains t p = true) : strContains t q = true := by
  rw [strContains_iff] at h ⊢
  exact hqp.trans h

theorem strContains_self (t : String) : strContains t t = true := by
  rw [strContains_iff]

/-- The normalisation strips every non-alphanumeric character, so the
literal needle `"w_pdir"` can never occur in a normalised label. -/
theorem normParam_no_underscore (v : String) :
    strContains (normParam v) "w_pdir" = false := by
  by_contra hne
  have h : strContains (normParam v) "w_pdir" = true := by
    cases hc : strContains (normParam v) "w_pdir" with
    | false => exact absurd hc hne
    | true => rfl
  rw [strContains_iff] at h
  have hmem : '_' ∈ (normParam v).data := h.sublist.subset (by decide)
  have hkeep := List.mem_filter.1 (by simpa [normParam] using hmem)
  simp [isDigitChar] at hkeep

theorem foldl_preserve {α β : Type} (P : α → Prop) (f : α → β → α)
    (hf : ∀ a b, P a → P (f a b)) : ∀ (l : List β) (a : α), P a → P (l.foldl f a) := by
  intro l
  induction l with
  | nil => intro a ha; exact ha
  | cons b r ih => intro a ha; exact ih _ (hf a b ha)

/-- The timestamp keys produced by one `Map` upsert. -/
theorem map_fst_upsertTs (l : List Rec) (ts : String) (k : CKey) (v : ℚ) :
    (upsertTs l ts k v).map Prod.fst =
      if ts ∈ l.map Prod.fst then l.map Prod.fst else l.map Prod.fst ++ [ts] := by
  induction l with
  | nil => simp [upsertTs]
  | cons p r ih =>
    obtain ⟨t0, fs⟩ := p
    by_cases h : t0 = ts
    · subst h
      simp [upsertTs]
    · simp only [upsertTs, if_neg h, List.map_cons, ih]
      have hts : ¬ ts = t0 := fun hh => h hh.symm
      by_cases hm : ts ∈ r.map Prod.fst <;> simp [hm, hts]

theorem nodupKeys_upsertTs {l : List Rec} (ts : String) (k : CKey) (v : ℚ)
    (h : (l.map Prod.fst).Nodup) : ((upsertTs l ts k v).map Prod.fst).Nodup := by
  rw [map_fst_upsertTs]
  by_cases hm : ts ∈ l.map Prod.fst
  · simpa [hm]
  · simp only [hm, if_false]
    rw [List.nodup_append]
    refine ⟨h, List.nodup_singleton _, ?_⟩
    intro a ha hmem
    rw [List.mem_singleton] at hmem
    exact hm (hmem ▸ ha)

theorem sorted_sortByTs (l : List Rec) : List.Sorted tsLe (sortByTs l) :=
  List.sorted_insertionSort tsLe l

theorem pairwise_ne_sortByTs {l : List Rec}
    (h : l.Pairwise (fun a b => a.1 ≠ b.1)) :
    (sortByTs l).Pairwise (fun a b => a.1 ≠ b.1) :=
  ((List.perm_insertionSort tsLe l).pairwise_iff (fun hab => hab ∘ Eq.symm)).2 h

theorem pairwise_ne_of_nodupKeys {l : List Rec} (h : (l.map Prod.fst).Nodup) :
    l.Pairwise (fun a b => a.1 ≠ b.1) :=
  (List.pairwise_map.1 h)

theorem nodupKeys_stepFetch (gen : String → Option String) (sc ti : String)
    (tc pc vc ic dc : Option String) (acc : List Rec) (r : Row)
    (h : (acc.map Prod.fst).Nodup) :
    ((stepFetch gen sc ti tc pc vc ic dc acc r).map Prod.fst).Nodup := by
  unfold stepFetch
  split
  · exact h
  · split
    · exact h
    · split
      · exact h
      · split
        · exact h
        · exact nodupKeys_upsertTs _ _ _ h

theorem nodupKeys_longRowStep (gen : String → Option String) (sc pid : String)
    (fc : List String) (tc pc vc : Option String) (acc : List Rec) (r : Row)
    (h : (acc.map Prod.fst).Nodup) :
    ((longRowStep gen sc pid fc tc pc vc acc r).map Prod.fst).Nodup := by
  unfold longRowStep
  split
  · exact h
  · split
    · exact h
    · split
      · exact h
      · split
        · exact h
        · exact nodupKeys_upsertTs _ _ _ h

theorem nodupKeys_stepPart0 (gen : String → Option String)
    (tc pc vc : Option String) (acc : List Rec) (r : Row)
    (h : (acc.map Prod.fst).Nodup) :
    ((stepPart0 gen tc pc vc acc r).map Prod.fst).Nodup := by
  unfold stepPart0
  split
  · exact h
  · split
    · exact h
    · split
      · exact h
      · exact nodupKeys_upsertTs _ _ _ h

/-! Lemmas on the wide-map fold, for the Shape Detector theorem. -/

theorem map_fst_upsertWide (m : List (CKey × String)) (k : CKey) (h : String) :
    (upsertWide m k h).map Prod.fst =
      if k ∈ m.map Prod.fst then m.map Prod.fst else m.map Prod.fst ++ [k] := by
  unfold upsertWide
  by_cases hk : k ∈ m.map Prod.fst
  · have hany : m.any (fun p => p.1 = k) = true := by
      rw [List.any_eq_true]
      obtain ⟨p, hp, he⟩ := List.mem_map.1 hk
      exact ⟨p, hp, by simp [he]⟩
    rw [if_pos hany, if_pos hk, List.map_map]
    apply List.map_congr_left
    intro p _
    by_cases hp : p.1 = k <;> simp [hp]
  · have hany : m.any (fun p => p.1 = k) = false := by
      rw [List.any_eq_false]
      intro p hp
      simp only [decide_eq_true_eq]
      intro he
      exact hk (List.mem_map.2 ⟨p, hp, he⟩)
    rw [if_neg (by simp [hany]), if_neg hk, List.map_append]
    rfl

theorem buildWideMap_invariant (headers : List String) :
    ∀ (m : List (CKey × String)), (m.map Prod.fst).Nodup →
      (((headers.foldl
        (fun m h =>
          match classifyWideHeader h with
          | some k => upsertWide m k h
          | none => m) m).map Prod.fst).Nodup ∧
       ∀ k, k ∈ (headers.foldl
        (fun m h =>
          match classifyWideHeader h with
          | some k => upsertWide m k h
          | none => m) m).map Prod.fst ↔
          k ∈ m.map Prod.fst ∨ k ∈ headers.filterMap classifyWideHeader) := by
  induction headers with
  | nil => intro m hm; simpa using hm
  | cons h0 rest ih =>
    intro m hm
    simp only [List.foldl_cons, List.filterMap_cons]
    cases hc : classifyWideHeader h0 with
    | none =>
      have := ih m hm
      simpa [hc] using this
    | some k0 =>
      have hup : ((upsertWide m k0 h0).map Prod.fst).Nodup := by
        rw [map_fst_upsertWide]
        by_cases hk : k0 ∈ m.map Prod.fst
        · simpa [hk]
        · simp only [hk, if_false]
          rw [List.nodup_append]
          refine ⟨hm, List.nodup_singleton _, ?_⟩
          intro a ha hmem
          rw [List.mem_singleton] at hmem
          exact hk (hmem ▸ ha)
      obtain ⟨ih1, ih2⟩ := ih (upsertWide m k0 h0) hup
      refine ⟨ih1, fun k => ?_⟩
      rw [ih2 k, map_fst_upsertWide]
      by_cases hk : k0 ∈ m.map Prod.fst <;> by_cases hkk : k = k0 <;>
        simp [hk, hkk]

theorem buildWideMap_keys (headers : List String) :
    ((buildWideMap headers).map Prod.fst).Nodup ∧
      ∀ k, k ∈ (buildWideMap headers).map Prod.fst ↔
        k ∈ headers.filterMap classifyWideHeader := by
  have h := buildWideMap_invariant headers [] (by simp)
  simpa [buildWideMap] using h

/-- The wide-map key count is the number of distinct canonical keys
identifiable among the headers. -/
theorem length_buildWideMap (headers : List String) :
    (buildWideMap headers).length = (headers.filterMap classifyWideHeader).dedup.length := by
  obtain ⟨hnd, hmem⟩ := buildWideMap_keys headers
  have h2 : ((buildWideMap headers).map Prod.fst).toFinset =
      (headers.filterMap classifyWideHeader).toFinset := by
    ext k
    simp only [List.mem_toFinset]
    exact hmem k
  calc (buildWideMap headers).length
      = ((buildWideMap headers).map Prod.fst).length := (List.length_map _ _).symm
    _ = ((buildWideMap headers).map Prod.fst).toFinset.card :=
        (List.toFinset_card_of_nodup hnd).symm
    _ = (headers.filterMap classifyWideHeader).toFinset.card := by rw [h2]
    _ = (headers.filterMap classifyWideHeader).dedup.length := List.card_toFinset _

/-! Lemmas on the `"|"`-joined identity pool, for the Row Selector theorem. -/

theorem upperStr_append (a b : String) : upperStr (a ++ b) = upperStr a ++ upperStr b := by
  apply String.ext
  simp [upperStr]

theorem infix_of_mem_joinSep {cells : List String} {c : String} (hc : c ∈ cells) :
    c.data <:+: (joinSep "|" cells).data := by
  induction cells with
  | nil => cases hc
  | cons s r ih =>
    cases r with
    | nil =>
      rw [List.mem_singleton] at hc
      subst hc
      exact List.infix_rfl
    | cons s2 r2 =>
      rcases List.mem_cons.1 hc with he | hm
      · subst he
        show c.data <:+: (c ++ "|" ++ joinSep "|" (s2 :: r2)).data
        simp only [String.data_append]
        exact ((List.prefix_append _ _).trans (List.prefix_append _ _)).isInfix
      · have h1 := ih hm
        show c.data <:+: (s ++ "|" ++ joinSep "|" (s2 :: r2)).data
        simp only [String.data_append]
        exact h1.trans (List.suffix_append _ _).isInfix

theorem upperStr_joinSep (cells : List String) :
    upperStr (joinSep "|" cells) = joinSep "|" (cells.map upperStr) := by
  induction cells with
  | nil => rfl
  | cons s r ih =>
    cases r with
    | nil => rfl
    | cons s2 r2 =>
      show upperStr (s ++ "|" ++ joinSep "|" (s2 :: r2)) =
        upperStr s ++ "|" ++ joinSep "|" ((s2 :: r2).map upperStr)
      rw [upperStr_append, upperStr_append, ih]
      rfl

/-! ## Claim theorems -/

/-- C5: the Shape Detector classifies the dataset as wide exactly when
classifying the column headers yields two or more distinct canonical
keys among `hm0, tp, tz, dir`; with fewer than two it classifies the
dataset as long. -/
theorem c5_shape_detector (headers : List String) :
    isWideHeaders headers = true ↔
      2 ≤ (headers.filterMap classifyWideHeader).dedup.length := by
  simp [isWideHeaders, length_buildWideMap]

/-- C2, counterexample: the spec's dir-rule holds of the normalised text
of `"W_PDIR"` (it contains `"wpdir"`), yet the classifier returns no
key for it, because the code tests for the literal `"w_pdir"`, which the
normalisation has already destroyed; conversely `"mwdx"` violates the
spec's "equals `mwd`" reading but is classified as `dir` by the code's
containment test. -/
theorem c2_counterexample :
    specDirCond (normParam "W_PDIR") = true ∧ classifyParam "W_PDIR" = none ∧
      classifyParam "mwdx" = some CKey.dir ∧ specDirCond (normParam "mwdx") = false := by
  refine ⟨by decide, by decide, by decide, by decide⟩

/-- C2, amended: the classifier returns `dir` exactly when the
normalised text matches none of the `hm0`/`tp`/`tz` rules and either
equals `"dp"`, or contains `"peakdirection"`, or contains `"mwd"`, or
contains `"direction"`; the code's additional `"w_pdir"` containment
test can never fire, since normalisation strips the underscore. -/
theorem c2_amended (v : String) :
    classifyParam v = some CKey.dir ↔
      (hm0Cond (normParam v) = false ∧ tpCondLong (normParam v) = false ∧
       tzCond (normParam v) = false ∧
       (normParam v = "dp" ∨ strContains (normParam v) "peakdirection" = true ∨
        strContains (normParam v) "mwd" = true ∨
        strContains (normParam v) "direction" = true)) := by
  have hw := normParam_no_underscore v
  have hdir : dirCondLong (normParam v) = true ↔
      (normParam v = "dp" ∨ strContains (normParam v) "peakdirection" = true ∨
       strContains (normParam v) "mwd" = true ∨
       strContains (normParam v) "direction" = true) := by
    unfold dirCondLong
    rw [hw]
    simp only [Bool.false_or, Bool.or_eq_true, decide_eq_true_eq]
    tauto
  have hchain : classifyParam v = some CKey.dir ↔
      (hm0Cond (normParam v) = false ∧ tpCondLong (normParam v) = false ∧
       tzCond (normParam v) = false ∧ dirCondLong (normParam v) = true) := by
    unfold classifyParam
    cases h1 : hm0Cond (normParam v) <;> cases h2 : tpCondLong (normParam v) <;>
      cases h3 : tzCond (normParam v) <;> cases h4 : dirCondLong (normParam v) <;>
      simp [h1, h2, h3, h4]
  rw [hchain, hdir]

/-- C6, counterexample: the long-form classifier and the wide-form
classifier disagree on the label `"TPP"` — the long rule set maps it to
`tp`, the wide rule set (which lacks the `"tpp"` case) to nothing. -/
theorem c6_counterexample :
    classifyLongParam "TPP" = some CKey.tp ∧ classifyWideHeader "TPP" = none := by
  refine ⟨by decide, by decide⟩

/-- C6, amended: the wide-form header classification refines the
long-form label classification — whenever the wide rules produce a
canonical key, the long rules produce the same key (the converse fails,
e.g. on `"TPP"` and on labels containing `"direction"` strictly). -/
theorem c6_amended (s : String) (k : CKey) (h : classifyWideHeader s = some k) :
    classifyLongParam s = some k := by
  have f1 : tpCondWide (normParam s) = true → tpCondLong (normParam s) = true := by
    unfold tpCondWide tpCondLong
    simp only [Bool.or_eq_true]
    tauto
  have f2 : dirCondWide (normParam s) = true → dirCondLong (normParam s) = true := by
    unfold dirCondWide dirCondLong
    simp only [Bool.or_eq_true, decide_eq_true_eq]
    have hdire : normParam s = "direction" → strContains (normParam s) "direction" = true := by
      intro hde
      rw [hde]
      exact strContains_self _
    have hmean : strContains (normParam s) "meandirection" = true →
        strContains (normParam s) "direction" = true :=
      fun hme =>
        strContains_of_infix ((strContains_iff "meandirection" "direction").1 (by rfl)) hme
    tauto
  have f3 : tpCondLong (normParam s) = true → tpCondWide (normParam s) = false →
      normParam s = "tpp" := by
    unfold tpCondWide tpCondLong
    simp only [Bool.or_eq_true, Bool.or_eq_false_iff, decide_eq_true_eq,
      decide_eq_false_iff_not]
    rintro (((h1 | h2) | h3) | h4) ⟨⟨hn1, hn2⟩, hn3⟩
    · exact absurd h1 hn1
    · exact absurd h2 hn2
    · rw [h3] at hn3
      cases hn3
    · exact h4
  simp only [classifyWideHeader] at h
  simp only [classifyLongParam, classifyParam]
  by_cases hA : hm0Cond (normParam s) = true
  · rw [if_pos hA] at h ⊢
    exact h
  · rw [if_neg hA] at h ⊢
    by_cases hBw : tpCondWide (normParam s) = true
    · rw [if_pos hBw] at h
      rw [if_pos (f1 hBw)]
      exact h
    · rw [if_neg hBw] at h
      have hBw0 : tpCondWide (normParam s) = false := by simpa using hBw
      have hBl : tpCondLong (normParam s) = false := by
        cases hb : tpCondLong (normParam s) with
        | false => rfl
        | true =>
          have htpp := f3 hb hBw0
          by_cases hC : tzCond (normParam s) = true
          · rw [htpp] at hC
            exact absurd hC (by decide)
          · rw [if_neg hC] at h
            by_cases hD : dirCondWide (normParam s) = true
            · rw [htpp] at hD
              exact absurd hD (by decide)
            · rw [if_neg hD] at h
              exact absurd h (by simp)
      rw [if_neg (by simp [hBl])]
      by_cases hC : tzCond (normParam s) = true
      · rw [if_pos hC] at h ⊢
        exact h
      · rw [if_neg hC] at h ⊢
        by_cases hD : dirCondWide (normParam s) = true
        · rw [if_pos hD] at h
          rw [if_pos (f2 hD)]
          exact h
        · rw [if_neg hD] at h
          exact absurd h (by simp)

/-- C6, witness: the refinement theorem applied at the header `"Hm0"`. -/
theorem c6_amended_witness :
    classifyWideHeader "Hm0" = some CKey.hm0 ∧ classifyLongParam "Hm0" = some CKey.hm0 :=
  ⟨by decide, c6_amended "Hm0" CKey.hm0 (by decide)⟩

/-- C7, counterexample: with the configured station code `EXT`, the
selector of `part_002` selects a row whose only identity cell is
`"NEXTGEN"` — the code is contained in the longer value though no
station/platform cell equals the configured tokens, so selection is
substring containment, not exact equality. -/
theorem c7_counterexample :
    rowIsCardigan "EXT" "353~EXT" [("Station", "NEXTGEN")] ["Station"] [] [] = true ∧
      upperStr (jsTrim "NEXTGEN") ≠ upperStr "EXT" ∧
      upperStr (jsTrim "NEXTGEN") ≠ upperStr "353~EXT" ∧
      matchesStation "EXT" "353~EXT" (some "Station") none [("Station", "NEXTGEN")] = false :=
  ⟨by decide, by decide, by decide, by decide⟩

/-- C7, amended: only the earliest selector (`matchesStation` of
`part_000`) implements exact case-insensitive equality against the
configured station code and platform id; the selector of `part_002`
tests substring containment of the configured needles in the
concatenated identity cells, so containment of the station code inside
any station/platform/name cell is already sufficient for selection. -/
theorem c7_amended :
    (∀ (sc pid : String) (stCol pfCol : Option String) (r : Row),
      matchesStation sc pid stCol pfCol r = true ↔
        (upperStr (jsTrim (rowGet r stCol)) = upperStr sc ∨
         upperStr (jsTrim (rowGet r pfCol)) = upperStr pid)) ∧
    (∀ (r : Row) (scs pcs ncs : List String) (c : String),
      c ∈ scs ++ pcs ++ ncs →
      strContains (upperStr (rowGet r (some c))) "EXT" = true →
      rowIsCardigan "EXT" "353~EXT" r scs pcs ncs = true) := by
  constructor
  · intro sc pid stCol pfCol r
    unfold matchesStation
    simp [Bool.or_eq_true]
  · intro r scs pcs ncs c hc hext
    unfold rowIsCardigan
    simp only [List.any_eq_true, List.mem_cons]
    refine ⟨upperStr "EXT", by simp, ?_⟩
    have hcell : (rowGet r (some c)) ∈ ((scs ++ pcs ++ ncs).map (fun c => rowGet r (some c))) :=
      List.mem_map.2 ⟨c, hc, rfl⟩
    have hinfix : (rowGet r (some c)).data <:+:
        (joinSep "|" ((scs ++ pcs ++ ncs).map (fun c => rowGet r (some c)))).data :=
      infix_of_mem_joinSep hcell
    have hup : (upperStr (rowGet r (some c))).data <:+:
        (upperStr (joinSep "|" ((scs ++ pcs ++ ncs).map (fun c => rowGet r (some c))))).data := by
      simp only [upperStr]
      exact hinfix.map (Char.toUpper)
    rw [strContains_iff] at hext ⊢
    exact hext.trans hup

/-- C7, witness: the containment-sufficiency direction applied at a
concrete row (`"NEXTGEN"` contains the code `"EXT"`). -/
theorem c7_amended_witness :
    strContains (upperStr (rowGet [("Station", "NEXTGEN")] (some "Station"))) "EXT" = true ∧
      rowIsCardigan "EXT" "353~EXT" [("Station", "NEXTGEN")] ["Station"] [] [] = true :=
  ⟨by decide,
    c7_amended.2 [("Station", "NEXTGEN")] ["Station"] [] [] "Station" (by simp) (by decide)⟩

/-- C8, counterexample: on an empty parsed payload the earliest script
generation (`part_000`, first script) exits with a non-zero status and
writes no output documents, contradicting the claim that every run
writes well-formed empty outputs and exits zero. -/
theorem c8_counterexample :
    runPart0 genNone "EXT" "353~EXT" [] = RunOut.fail ∧
      RunOut.fail ≠ RunOut.ok [] none :=
  ⟨rfl, by decide⟩

/-- C8, amended: the `fetch_cefas.mjs` generation writes empty outputs
and exits zero on an empty payload and on a payload whose required
column roles resolve to nothing (its selector then drops every row);
`part_001` likewise yields an empty series.  The earliest generation
(`part_000`, first script) instead exits non-zero in both situations. -/
theorem c8_amended :
    (∀ (gen : String → Option String) (sc ti : String),
      runFetch gen sc ti [] = RunOut.ok [] none) ∧
    (∀ (gen : String → Option String),
      runFetch gen "EXT" "353" [[("Foo", "1")]] = RunOut.ok [] none) ∧
    (∀ (gen : String → Option String) (sc pid : String),
      seriesPart1 gen sc pid [] = []) ∧
    (∀ (gen : String → Option String) (sc pid : String),
      runPart0 gen sc pid [] = RunOut.fail) ∧
    (∀ (gen : String → Option String) (sc pid : String),
      runPart0 gen sc pid [[("Foo", "1")]] = RunOut.fail) := by
  refine ⟨fun gen sc ti => rfl, fun gen => rfl, fun gen sc pid => rfl,
    fun gen sc pid => rfl, fun gen sc pid => rfl⟩

/-- C9: the post-fetch core of every generation is a pure function of
the parsed payload and the configuration — two runs on byte-identical
payloads with identical configuration produce identical series and
latest documents. -/
theorem c9_deterministic (gen : String → Option String) (sc ti pid : String)
    (p q : List Row) (h : p = q) :
    runFetch gen sc ti p = runFetch gen sc ti q ∧
      runPart1 gen sc pid p = runPart1 gen sc pid q ∧
      runPart0 gen sc pid p = runPart0 gen sc pid q := by
  subst h
  exact ⟨rfl, rfl, rfl⟩

/-- C9, witness: the determinism theorem applied to the concrete
scenario payload. -/
theorem c9_deterministic_witness :
    runFetch genNone "EXT" "353" c1Rows = runFetch genNone "EXT" "353" c1Rows ∧
      runPart1 genNone "EXT" "353~EXT" c1Rows = runPart1 genNone "EXT" "353~EXT" c1Rows ∧
      runPart0 genNone "EXT" "353~EXT" c1Rows = runPart0 genNone "EXT" "353~EXT" c1Rows :=
  c9_deterministic genNone "EXT" "353" "353~EXT" c1Rows c1Rows rfl

/-- Outside the two-digit-year range the `Date.UTC` reading and the
year-as-written reading coincide. -/
theorem dateUTCtoISO_eq_spec (y m0 d h mi s : Int) (hy : 100 ≤ y) :
    dateUTCtoISO y m0 d h mi s = dateUTCtoISOSpec y m0 d h mi s := by
  unfold dateUTCtoISO dateUTC dateUTCtoISOSpec
  rw [if_neg (by omega)]

/-- C3, counterexample: two divergences between the code and the
claimed normalisation.  (a) On `"01/06/0024 12:00"` — day-first shape,
year `0024` — `Date.UTC`'s mandated two-digit-year rule makes the code
produce `1924-06-01`, while the claim's all-components-UTC reading
keeps the year as written, `0024-06-01`; no generic parser is involved.
(b) On the legacy form `"June 1, 2024"` under a host clock at UTC+01:00
the code's fallback (string unchanged, local-time parse) gives
`2024-05-31T23:00:00.000Z`, while the claim's marker-appending fallback
gives `2024-06-01T00:00:00.000Z`. -/
theorem c3_counterexample :
    (toISOFetch genNone "01/06/0024 12:00" = some "1924-06-01T12:00:00.000Z" ∧
      toISOSpecModel genNone "01/06/0024 12:00" = some "0024-06-01T12:00:00.000Z" ∧
      toISOFetch genNone "01/06/0024 12:00" ≠ toISOSpecModel genNone "01/06/0024 12:00") ∧
    (toISOFetch genLegacyPlusOne "June 1, 2024" = some "2024-05-31T23:00:00.000Z" ∧
      toISOSpecModel genLegacyPlusOne "June 1, 2024" = some "2024-06-01T00:00:00.000Z" ∧
      toISOFetch genLegacyPlusOne "June 1, 2024" ≠
        toISOSpecModel genLegacyPlusOne "June 1, 2024") :=
  ⟨⟨by decide, by decide, by decide⟩, ⟨by decide, by decide, by decide⟩⟩

/-- C3, amended: `fetch_cefas.mjs` tries the three literal shapes in the
claimed order, and its result agrees with the claimed normalisation on
every ISO-`T` input, on every literal-shape input whose four-digit year
is `0100` or more, and on every fallback string already carrying a
trailing UTC marker; but on literal-shape years `0000`–`0099` the code
follows `Date.UTC`'s two-digit-year remap to `1900 + year` where the
claimed reading keeps the year as written, and on the remaining strings
the fallback hands the trimmed string to the generic parser unchanged —
no UTC marker is appended (the marker-appending fallback belongs to the
other generations' normalisers, which have only the `D/M/Y` shape). -/
theorem c3_amended :
    (∀ (gen : String → Option String) (s : String),
      isoTTest (jsTrim s).data = true → toISOFetch gen s = toISOSpecModel gen s) ∧
    (∀ (gen : String → Option String) (s : String) (dd mm yyyy hh mi2 ss : Nat),
      isoTTest (jsTrim s).data = false →
      matchDMY (jsTrim s).data = some (dd, mm, yyyy, hh, mi2, ss) →
      100 ≤ yyyy → toISOFetch gen s = toISOSpecModel gen s) ∧
    (∀ (gen : String → Option String) (s : String) (yyyy mm dd hh mi2 ss : Nat),
      isoTTest (jsTrim s).data = false → matchDMY (jsTrim s).data = none →
      matchYMD (jsTrim s).data = some (yyyy, mm, dd, hh, mi2, ss) →
      100 ≤ yyyy → toISOFetch gen s = toISOSpecModel gen s) ∧
    (∀ (gen : String → Option String) (s : String),
      isoTTest (jsTrim s).data = false → matchDMY (jsTrim s).data = none →
      matchYMD (jsTrim s).data = none → strEndsWith (jsTrim s) "Z" = true →
      toISOFetch gen s = toISOSpecModel gen s) ∧
    (∀ (gen : String → Option String) (s : String),
      isoTTest (jsTrim s).data = false → matchDMY (jsTrim s).data = none →
      matchYMD (jsTrim s).data = none →
      toISOFetch gen s = gen (jsTrim s)) := by
  refine ⟨?_, ?_, ?_, ?_, ?_⟩
  · intro gen s h1
    simp only [toISOFetch, toISOSpecModel]
    rw [if_pos h1, if_pos h1]
  · intro gen s dd mm yyyy hh mi2 ss h1 hd hy
    simp only [toISOFetch, toISOSpecModel]
    rw [if_neg (by simp [h1]), if_neg (by simp [h1])]
    simp only [hd]
    rw [dateUTCtoISO_eq_spec]
    exact_mod_cast hy
  · intro gen s yyyy mm dd hh mi2 ss h1 hd hy hge
    simp only [toISOFetch, toISOSpecModel]
    rw [if_neg (by simp [h1]), if_neg (by simp [h1])]
    simp only [hd, hy]
    rw [dateUTCtoISO_eq_spec]
    exact_mod_cast hge
  · intro gen s h1 hd hy hz
    simp only [toISOFetch, toISOSpecModel]
    rw [if_neg (by simp [h1]), if_neg (by simp [h1])]
    simp only [hd, hy]
    rw [if_pos hz]
  · intro gen s h1 hd hy
    simp only [toISOFetch]
    rw [if_neg (by simp [h1]), hd, hy]

/-- C3, witness: the year-`2024` agreement direction at a `D/M/Y` input
and the unchanged-fallback direction at a shapeless input. -/
theorem c3_amended_witness :
    (matchDMY (jsTrim "01/06/2024 12:00").data = some (1, 6, 2024, 12, 0, 0) ∧
      toISOFetch genNone "01/06/2024 12:00" = toISOSpecModel genNone "01/06/2024 12:00") ∧
      toISOFetch genNone "not-a-date" = genNone (jsTrim "not-a-date") :=
  ⟨⟨by decide,
    c3_amended.2.1 genNone "01/06/2024 12:00" 1 6 2024 12 0 0 (by decide) (by decide)
      (by decide)⟩,
    c3_amended.2.2.2.2 genNone "not-a-date" (by decide) (by decide) (by decide)⟩

/-- C10: a value cell is accepted exactly when `parseFloat` on the
trimmed cell with only its first comma replaced yields a finite number,
and that number is recorded: the pipeline records `5` for the cell
`"5.0abc"`, the comma replacement touches only the first comma
(`"1,2,3"` becomes `"1.2,3"` and is accepted as `1.2`), the comma
decimal `"1,5"` is accepted as `1.5`, and a non-numeric cell is
dropped. -/
theorem c10_value_parsing :
    (∀ gen : String → Option String,
      runFetch gen "EXT" "353" c10Rows =
        RunOut.ok [("2024-06-01T12:00:00.000Z", [(CKey.hm0, (5 : ℚ))])]
          (some ("2024-06-01T12:00:00.000Z", [(CKey.hm0, (5 : ℚ))]))) ∧
    jsParseFloatFinite (jsCommaToDot (normS " 1,2,3 ")) = some (mkRat 6 5) ∧
    jsCommaToDot "1,2,3" = "1.2,3" ∧
    jsParseFloatFinite (jsCommaToDot (normS "1,5")) = some (mkRat 3 2) ∧
    jsParseFloatFinite (jsCommaToDot (normS "abc")) = none := by
  refine ⟨fun gen => ?_, by decide, by decide, by decide, by decide⟩
  rfl

/-- First scenario row, named for the step lemmas. -/
def c1Row1 : Row := [("Time", "01/06/2024 12:00"), ("Parameter", "Hm0"), ("Value", "1,5"), ("Station", "EXT")]

/-- Second scenario row. -/
def c1Row2 : Row := [("Time", "01/06/2024 12:00"), ("Parameter", "Tp"), ("Value", "6.2"), ("Station", "EXT")]

theorem c1Rows_eq : c1Rows = [c1Row1, c1Row2] := rfl

/-- Long-path step of `part_001` on the first scenario row: selected via
the `Station` column, classified `hm0`, value `1.5`; the timestamp is
whatever the generic parser makes of `"01/06/2024 12:00"`. -/
theorem c1_long_step1 (gen : String → Option String) (ts0 : String)
    (h : gen "01/06/2024 12:00" = some ts0) (acc : List Rec) :
    longRowStep gen "EXT" "353~EXT" ["Station"] (some "Time") (some "Parameter")
      (some "Value") acc c1Row1 = upsertTs acc ts0 CKey.hm0 (mkRat 3 2) := by
  unfold longRowStep
  rw [if_neg (by decide)]
  have htn : toISONative gen (rowGet c1Row1 (some "Time")) = some ts0 := by
    show toISONative gen "01/06/2024 12:00" = some ts0
    unfold toISONative
    rw [h]
  rw [htn]
  rfl

theorem c1_long_step2 (gen : String → Option String) (ts0 : String)
    (h : gen "01/06/2024 12:00" = some ts0) (acc : List Rec) :
    longRowStep gen "EXT" "353~EXT" ["Station"] (some "Time") (some "Parameter")
      (some "Value") acc c1Row2 = upsertTs acc ts0 CKey.tp (mkRat 31 5) := by
  unfold longRowStep
  rw [if_neg (by decide)]
  have htn : toISONative gen (rowGet c1Row2 (some "Time")) = some ts0 := by
    show toISONative gen "01/06/2024 12:00" = some ts0
    unfold toISONative
    rw [h]
  rw [htn]
  rfl

/-- C1, counterexample: the scenario rows carry their station identity
in a `Station` column, which the row selector of `fetch_cefas.mjs`
never consults (it matches only instrument-id digits and deployment
text); both rows are dropped and the run emits an empty series, not the
claimed single Canonical Record. -/
theorem c1_counterexample :
    runFetch genNone "EXT" "353" c1Rows = RunOut.ok [] none ∧
      RunOut.ok [] none ≠
        RunOut.ok [("2024-06-01T12:00:00.000Z", [(CKey.hm0, mkRat 3 2), (CKey.tp, mkRat 31 5)])]
          (some ("2024-06-01T12:00:00.000Z", [(CKey.hm0, mkRat 3 2), (CKey.tp, mkRat 31 5)])) :=
  ⟨rfl, by decide⟩

/-- C1, amended: no script generation produces the claimed record.
Under `fetch_cefas.mjs` — whose timestamp normaliser would indeed read
`"01/06/2024 12:00"` day-first as `2024-06-01T12:00:00.000Z` — the
scenario rows are never selected and the series is empty, for every
behaviour of the generic date parser.  Under `part_001` — whose
selector does match the `Station` cell `"EXT"` — the pipeline emits
exactly one record with `hm0 = 1.5` and `tp = 6.2` (comma decimal
accepted, no other canonical fields), but its timestamp is whatever the
generic date parser returns for `"01/06/2024 12:00"` (month-first on
the actual hosts), not the day-first UTC reading the claim states. -/
theorem c1_amended :
    (∀ gen : String → Option String, runFetch gen "EXT" "353" c1Rows = RunOut.ok [] none) ∧
    (∀ (gen : String → Option String) (ts0 : String),
      gen "01/06/2024 12:00" = some ts0 →
      seriesPart1 gen "EXT" "353~EXT" c1Rows =
        [(ts0, [(CKey.hm0, mkRat 3 2), (CKey.tp, mkRat 31 5)])]) := by
  constructor
  · intro gen
    rfl
  · intro gen ts0 h
    show sortByTs (sortByTs (List.foldl
      (longRowStep gen "EXT" "353~EXT" ["Station"] (some "Time") (some "Parameter")
        (some "Value")) [] [c1Row1, c1Row2])) =
      [(ts0, [(CKey.hm0, mkRat 3 2), (CKey.tp, mkRat 31 5)])]
    rw [List.foldl_cons, c1_long_step1 gen ts0 h, List.foldl_cons, c1_long_step2 gen ts0 h,
      List.foldl_nil]
    show sortByTs (sortByTs (upsertTs [(ts0, [(CKey.hm0, mkRat 3 2)])] ts0 CKey.tp (mkRat 31 5))) = _
    unfold upsertTs
    rw [if_pos rfl]
    rfl

/-- C1, witness: the `part_001` behaviour instantiated with the hosts'
actual month-first, UTC-clock reading of the slash date. -/
theorem c1_amended_witness :
    genJan "01/06/2024 12:00" = some "2024-01-06T12:00:00.000Z" ∧
      seriesPart1 genJan "EXT" "353~EXT" c1Rows =
        [("2024-01-06T12:00:00.000Z", [(CKey.hm0, mkRat 3 2), (CKey.tp, mkRat 31 5)])] :=
  ⟨by decide, c1_amended.2 genJan "2024-01-06T12:00:00.000Z" (by decide)⟩

/-- C4, counterexample: in the wide path of `part_001` every selected
row pushes its own record, with no merge by timestamp — a two-row wide
payload sharing one timestamp yields two records with the same
timestamp in the output series. -/
theorem c4_counterexample :
    (seriesPart1 genIso "EXT" "353~EXT" c4WideRows).map Prod.fst =
      ["2024-06-01T12:00:00.000Z", "2024-06-01T12:00:00.000Z"] ∧
      ¬ (seriesPart1 genIso "EXT" "353~EXT" c4WideRows).Pairwise
        (fun a b => a.1 ≠ b.1) :=
  ⟨by decide, by decide⟩

/-- C4, amended: the emitted series is sorted non-decreasing by
timestamp (code-point order) in every path; timestamps are unique in
the long paths (the `Map`-pivot of `part_001` and the whole
`fetch_cefas.mjs` reducer), but the wide path of `part_001` pushes one
record per selected row, so duplicate timestamps survive there. -/
theorem c4_amended :
    (∀ (gen : String → Option String) (sc pid : String) (rows : List Row),
      List.Sorted tsLe (seriesPart1 gen sc pid rows)) ∧
    (∀ (gen : String → Option String) (sc pid : String) (rows : List Row),
      isWideHeaders (headersOf rows) = false →
      (seriesPart1 gen sc pid rows).Pairwise (fun a b => a.1 ≠ b.1)) ∧
    (∀ (gen : String → Option String) (sc ti : String) (rows : List Row)
      (s : List Rec) (l : Option Rec),
      runFetch gen sc ti rows = RunOut.ok s l →
      List.Sorted tsLe s ∧ s.Pairwise (fun a b => a.1 ≠ b.1)) := by
  refine ⟨?_, ?_, ?_⟩
  · intro gen sc pid rows
    cases rows with
    | nil => exact List.sorted_nil
    | cons r0 rest =>
      simp only [seriesPart1]
      split
      · exact sorted_sortByTs _
      · exact sorted_sortByTs _
  · intro gen sc pid rows hW
    cases rows with
    | nil => exact List.Pairwise.nil
    | cons r0 rest =>
      have hW2 : ¬ 2 ≤ (buildWideMap ((r0 : List (String × String)).map Prod.fst)).length := by
        simpa [isWideHeaders, headersOf] using hW
      simp only [seriesPart1]
      rw [if_neg hW2]
      apply pairwise_ne_sortByTs
      apply pairwise_ne_sortByTs
      apply pairwise_ne_of_nodupKeys
      exact foldl_preserve (fun acc : List Rec => (acc.map Prod.fst).Nodup) _
        (fun a b ha => nodupKeys_longRowStep _ _ _ _ _ _ _ _ _ ha) _ _ List.nodup_nil
  · intro gen sc ti rows s l hrun
    cases rows with
    | nil =>
      simp only [runFetch] at hrun
      injection hrun with h1 h2
      subst h1
      exact ⟨List.sorted_nil, List.Pairwise.nil⟩
    | cons r0 rest =>
      simp only [runFetch] at hrun
      injection hrun with h1 h2
      subst h1
      refine ⟨sorted_sortByTs _, ?_⟩
      apply pairwise_ne_sortByTs
      apply pairwise_ne_of_nodupKeys
      exact foldl_preserve (fun acc : List Rec => (acc.map Prod.fst).Nodup) _
        (fun a b ha => nodupKeys_stepFetch _ _ _ _ _ _ _ _ a b ha) _ _ List.nodup_nil

/-- C4, witness: the long-path uniqueness and the `fetch_cefas.mjs`
guarantees applied at the concrete scenario payload. -/
theorem c4_amended_witness :
    isWideHeaders (headersOf c1Rows) = false ∧
      (seriesPart1 genNone "EXT" "353~EXT" c1Rows).Pairwise (fun a b => a.1 ≠ b.1) ∧
      runFetch genNone "EXT" "353" c1Rows = RunOut.ok [] none ∧
      List.Sorted tsLe [] :=
  ⟨by decide, c4_amended.2.1 genNone "EXT" "353~EXT" c1Rows (by decide), rfl,
    (c4_amended.2.2 genNone "EXT" "353" c1Rows [] none rfl).1⟩

end Cefas
